import Mathlib

/-!
Verification of `src/watch.c` (chadwhitacre/watch, v0.3.0).

The file shallowly embeds the parts of `watch.c` the claims are about:

* the per-cell diff/highlight rule of the render loop (`main`, lines 582-595),
  together with the `first_screen` / `screen_size_changed` flag protocol of the
  loop controller (lines 430-437, 616);
* the failure exit codes of `main` and of the child process;
* the restricted ANSI escape processor `process_ansi` (lines 109-144) with its
  attribute map `set_ansi_attribute` (lines 90-107);
* the wide-character decoder `my_getwc` (lines 238-260);
* the terminal-size resolution `get_terminal_size` (lines 181-225);
* the line layout engine: the double `for` loop of `main` (lines 534-600).

Code points and bytes are `Nat`; machine reads that can fail yield `Option`.
Locale-dependent library calls (`mbtowc`, `wcwidth`, `isprint`) are taken as
parameters of the embedding, since the C code only observes their results.
-/

namespace Watch

/-- A painted screen cell as the diff pass observes it through `in_wch`:
the code point last written at the position and whether it was painted
highlighted (standout attribute; `oldc.attr & A_ATTRIBUTES` in the source
reads that attribute back). -/
structure DCell where
  ch : Nat
  hl : Bool
deriving DecidableEq

/-- Lines 585-589 of `main`:
`attr = !first_screen && (c != oldc.chars[0] || (option_differences_cumulative && (oldc.attr & A_ATTRIBUTES)))`. -/
def diffAttr (first_screen cumulative : Bool) (c : Nat) (oldc : DCell) : Bool :=
  !first_screen && (decide (c ≠ oldc.ch) || (cumulative && oldc.hl))

/-- One full render pass in differences mode: every cell of the new screen
holds the newly laid-out code point and the highlight flag computed by
`diffAttr` against what was on screen before (lines 581-595). -/
def renderScreen (first_screen cumulative : Bool) (content : Nat → Nat → Nat)
    (prev : Nat → Nat → DCell) : Nat → Nat → DCell :=
  fun y x => ⟨content y x, diffAttr first_screen cumulative (content y x) (prev y x)⟩

/-- The `first_screen` flag seen by render `n`: it starts at 1 (line 72), is
set again at cycle entry whenever `screen_size_changed` was raised by the
`SIGWINCH` handler (lines 430-437), and is cleared after every render
(line 616).  `resize n` models whether a resize was pending at cycle `n`. -/
def firstAt (resize : Nat → Bool) : Nat → Bool
  | 0 => true
  | n + 1 => resize (n + 1)

/-- The screen before the very first render: blank, nothing highlighted. -/
def initScreen : Nat → Nat → DCell := fun _ _ => ⟨32, false⟩

/-- The screen contents after render `n`, as a function of the resize events
and of the grid of code points `contents n` laid out at each render. -/
def screens (cumulative : Bool) (resize : Nat → Bool)
    (contents : Nat → Nat → Nat → Nat) : Nat → Nat → Nat → DCell
  | 0 => renderScreen (firstAt resize 0) cumulative (contents 0) initScreen
  | n + 1 => renderScreen (firstAt resize (n + 1)) cumulative (contents (n + 1))
      (screens cumulative resize contents n)

/-- C1: in cumulative differences mode, on every render after the first with no
resize marking it first, a cell's highlight flag equals (current code point
differs from the previous render's code point there) OR (the cell's own
highlight flag on the previous render); consequently once a cell is
highlighted it stays highlighted on every later render as long as no render
in between is marked first. -/
theorem cumulative_highlight_persists
    (resize : Nat → Bool) (contents : Nat → Nat → Nat → Nat) (y x : Nat) :
    (∀ n, resize (n + 1) = false →
      (screens true resize contents (n + 1) y x).hl
        = (decide ((screens true resize contents (n + 1) y x).ch
              ≠ (screens true resize contents n y x).ch)
            || (screens true resize contents n y x).hl))
    ∧ ∀ n k, n ≤ k → (∀ m, n < m → m ≤ k → firstAt resize m = false) →
        (screens true resize contents n y x).hl = true →
        (screens true resize contents k y x).hl = true := by
  constructor
  · intro n h
    simp [screens, renderScreen, diffAttr, firstAt, h]
  · intro n k hnk hmid hhl
    induction k with
    | zero =>
      have hn : n = 0 := Nat.le_zero.mp hnk
      simpa [hn] using hhl
    | succ k ih =>
      rcases Nat.lt_or_ge n (k + 1) with hlt | hge
      · have hk : n ≤ k := Nat.lt_succ_iff.mp hlt
        have hprev := ih hk (fun m h1 h2 => hmid m h1 (Nat.le_succ_of_le h2))
        have hf : firstAt resize (k + 1) = false :=
          hmid (k + 1) (Nat.lt_succ_of_le hk) (Nat.le_refl _)
        have hf2 : resize (k + 1) = false := by simpa [firstAt] using hf
        simp [screens, renderScreen, diffAttr, firstAt, hf2, hprev]
      · have hn : n = k + 1 := Nat.le_antisymm hnk hge
        simpa [hn] using hhl

/-- Witness for C1 at a concrete run: content at render `n` is the code point
`n` everywhere, no resizes; the cell (0,0) highlighted at render 1 is still
highlighted at render 2. -/
theorem cumulative_highlight_persists_witness :
    (screens true (fun _ => false) (fun n _ _ => n) 2 0 0).hl = true :=
  (cumulative_highlight_persists (fun _ => false) (fun n _ _ => n) 0 0).2 1 2
    (by omega)
    (fun m h1 h2 => by
      cases m with
      | zero => omega
      | succ mm => rfl)
    (by decide)

/-- C2: the diff pass never highlights a cell on a render marked first — the
very first render (`n = 0`, `first_screen` starts at 1) and any render right
after a resize (the handler raises `screen_size_changed`, cycle entry turns it
into `first_screen = 1`) — for every input grid sequence and both modes. -/
theorem first_render_no_highlight
    (cumulative : Bool) (resize : Nat → Bool) (contents : Nat → Nat → Nat → Nat)
    (n y x : Nat) (h : firstAt resize n = true) :
    (screens cumulative resize contents n y x).hl = false := by
  cases n with
  | zero => simp [screens, renderScreen, diffAttr, firstAt]
  | succ n =>
    have h2 : resize (n + 1) = true := by simpa [firstAt] using h
    simp [screens, renderScreen, diffAttr, firstAt, h2]

/-- Witness for C2: a resize pending at cycle 3 makes render 3 highlight-free
even though every cell's content changes at every render. -/
theorem first_render_no_highlight_witness :
    (screens false (fun _ => true) (fun n _ _ => n) 3 1 2).hl = false :=
  first_render_no_highlight false (fun _ => true) (fun n _ _ => n) 3 1 2 rfl

/-- The six failure exits named by the spec.  In `src/watch.c`: pipe failure
`do_exit(7)` (line 486), fork failure `do_exit(2)` (line 498), exec failure in
the child `exit(4)` (line 511), `fdopen` failure `do_exit(5)` (line 530),
`waitpid` failure `do_exit(8)` (line 607), `--errexit` on a nonzero child exit
`do_exit(8)` (line 613). -/
inductive FailureExit
  | pipeFail
  | forkFail
  | execFail
  | fdopenFail
  | waitFail
  | errExit
deriving DecidableEq

/-- The exit code used by each failure exit, transcribed from `src/watch.c`. -/
def exitCode : FailureExit → Nat
  | .pipeFail => 7
  | .forkFail => 2
  | .execFail => 4
  | .fdopenFail => 5
  | .waitFail => 8
  | .errExit => 8

/-- Termination via a caught signal: the handler `die` calls `do_exit(0)`
(lines 162-167). -/
def signalExitStatus : Nat := 0

/-- C4 fails as stated: the wait-failure exit and the errexit exit are two
different failure exits, yet both terminate with code 8, so the six codes
are not pairwise distinct. -/
theorem exit_codes_share_eight :
    exitCode .waitFail = exitCode .errExit ∧ exitCode .waitFail = 8 := by
  decide

/-- C4 amended: every failure exit code is nonzero and signal termination
exits with status 0; the six codes are pairwise distinct except that the
wait-failure exit and the errexit exit share code 8. -/
theorem exit_codes_amended :
    (∀ k, exitCode k ≠ 0) ∧ signalExitStatus = 0 ∧
      ∀ k j, exitCode k = exitCode j →
        k = j ∨ (k = .waitFail ∧ j = .errExit) ∨ (k = .errExit ∧ j = .waitFail) := by
  refine ⟨?_, rfl, ?_⟩
  · intro k
    cases k <;> decide
  · intro k j
    cases k <;> cases j <;> decide

/-- Witness for C4 amended, applied at the one genuinely colliding pair. -/
theorem exit_codes_amended_witness :
    FailureExit.waitFail = FailureExit.errExit
      ∨ (FailureExit.waitFail = FailureExit.waitFail
          ∧ FailureExit.errExit = FailureExit.errExit)
      ∨ (FailureExit.waitFail = FailureExit.errExit
          ∧ FailureExit.errExit = FailureExit.waitFail) :=
  exit_codes_amended.2.2 .waitFail .errExit rfl

/-- Result of one call of the wide-character decoder `my_getwc`:
a decoded code point, `WEOF` signalling end of stream, or `WEOF` with
`errno = -EILSEQ` signalling a decode error. -/
inductive GetwcResult
  | char (c : Nat)
  | eof
  | err
deriving DecidableEq

/-- The loop of `my_getwc` (lines 245-259 of `src/watch.c`), with the bytes
already buffered as first list argument and the remaining stream as second.
`conv` abstracts `mbtowc` on the buffered bytes (`some cp` exactly when
`mbtowc` returns a positive count; the call is preceded by a state reset, so
it is a pure function of the buffer).  The byte read by `getc` is stored into
a plain `char` and compared with `EOF`, so on a signed-char platform both the
true end of stream and a literal `0xFF` byte take the `return WEOF` branch;
on a decode failure with a full 16-byte buffer, all buffered bytes except the
first are pushed back (`while(byte > 1) ungetc(i[--byte], s)`). -/
def my_getwcLoop (conv : List Nat → Option Nat) :
    List Nat → List Nat → GetwcResult × List Nat
  | _, [] => (.eof, [])
  | buf, b :: rest =>
    if b = 255 then (.eof, rest)
    else
      match conv (buf ++ [b]) with
      | some cp => (.char cp, rest)
      | none =>
        if (buf ++ [b]).length = 16 then (.err, (buf ++ [b]).drop 1 ++ rest)
        else my_getwcLoop conv (buf ++ [b]) rest

/-- `my_getwc` starts with an empty buffer. -/
def my_getwc (conv : List Nat → Option Nat) (s : List Nat) :
    GetwcResult × List Nat :=
  my_getwcLoop conv [] s

theorem my_getwcLoop_le (conv : List Nat → Option Nat) (s : List Nat) :
    ∀ buf : List Nat, buf.length < 16 →
      s.length ≤ (my_getwcLoop conv buf s).2.length + (16 - buf.length) := by
  induction s with
  | nil => intro buf h; simp [my_getwcLoop]
  | cons b rest ih =>
    intro buf h
    rw [my_getwcLoop]
    by_cases hb : b = 255
    · rw [if_pos hb]; simp; omega
    · rw [if_neg hb]
      cases hc : conv (buf ++ [b]) with
      | some cp => simp; omega
      | none =>
        by_cases hl : (buf ++ [b]).length = 16
        · rw [if_pos hl]
          simp
          omega
        · rw [if_neg hl]
          have hlen : (buf ++ [b]).length < 16 := by
            simp at hl ⊢
            omega
          have := ih (buf ++ [b]) hlen
          simp [List.length_append] at this ⊢
          omega

theorem my_getwcLoop_err (conv : List Nat → Option Nat) (s : List Nat) :
    ∀ buf : List Nat,
      (my_getwcLoop conv buf s).1 = .err →
      (my_getwcLoop conv buf s).2 = (buf ++ s).drop 1 := by
  induction s with
  | nil => intro buf h; simp [my_getwcLoop] at h
  | cons b rest ih =>
    intro buf h
    rw [my_getwcLoop] at h ⊢
    by_cases hb : b = 255
    · rw [if_pos hb] at h; exact absurd h (by simp)
    · rw [if_neg hb] at h ⊢
      cases hc : conv (buf ++ [b]) with
      | some cp => rw [hc] at h; simp at h
      | none =>
        rw [hc] at h
        simp only at h ⊢
        by_cases hl : (buf ++ [b]).length = 16
        · rw [if_pos hl]
          cases buf <;> simp
        · rw [if_neg hl] at h ⊢
          rw [ih (buf ++ [b]) h]
          simp

theorem my_getwcLoop_progress (conv : List Nat → Option Nat) (s : List Nat) :
    ∀ buf : List Nat, s ≠ [] →
      (my_getwcLoop conv buf s).1 ≠ .err →
      (my_getwcLoop conv buf s).2.length < s.length := by
  induction s with
  | nil => intro buf hne; exact absurd rfl hne
  | cons b rest ih =>
    intro buf hne h
    rw [my_getwcLoop] at h ⊢
    by_cases hb : b = 255
    · rw [if_pos hb]; simp
    · rw [if_neg hb] at h ⊢
      cases hc : conv (buf ++ [b]) with
      | some cp => simp
      | none =>
        rw [hc] at h
        simp only at h ⊢
        by_cases hl : (buf ++ [b]).length = 16
        · rw [if_pos hl] at h; exact absurd rfl h
        · rw [if_neg hl] at h ⊢
          rcases rest with _ | ⟨r, rs⟩
          · simp [my_getwcLoop]
          · exact Nat.lt_trans (ih (buf ++ [b]) (by simp) h) (by simp)

/-- C6: each `my_getwc` call consumes at most 16 bytes of the stream before
returning; after a decode error the stream has advanced by exactly one byte
(all buffered bytes except the first are pushed back); and on a nonempty
stream every call strictly consumes, so repeated calls always make
progress. -/
theorem my_getwc_bounded_progress (conv : List Nat → Option Nat) (s : List Nat) :
    s.length ≤ (my_getwc conv s).2.length + 16
    ∧ ((my_getwc conv s).1 = .err → (my_getwc conv s).2 = s.drop 1)
    ∧ (s ≠ [] → (my_getwc conv s).2.length < s.length) := by
  refine ⟨?_, ?_, ?_⟩
  · have := my_getwcLoop_le conv s [] (by simp)
    simpa [my_getwc] using this
  · intro h
    simpa [my_getwc] using my_getwcLoop_err conv s [] h
  · intro hne
    by_cases herr : (my_getwc conv s).1 = .err
    · have h2 : (my_getwc conv s).2 = s.drop 1 := by
        simpa [my_getwc] using my_getwcLoop_err conv s [] herr
      rw [h2]
      have : 0 < s.length := List.length_pos.mpr hne
      simp [List.length_drop]
      omega
    · exact my_getwcLoop_progress conv s [] hne herr

/-- Witness for C6: with an `mbtowc` that never succeeds, a 17-byte stream
loses exactly its first byte to one decoding call. -/
theorem my_getwc_bounded_progress_witness :
    (my_getwc (fun _ => none) (List.replicate 16 1 ++ [9])).2.length
      < (List.replicate 16 1 ++ [9]).length :=
  (my_getwc_bounded_progress (fun _ => none) (List.replicate 16 1 ++ [9])).2.2
    (by decide)

/-- C10 fails as stated: a literal `0xFF` byte is reported as end of stream by
the call that reads it, but the caller's next call decodes the bytes behind
it — here `0x41` is still decoded after the `0xFF` — so input after the byte
is not unreachable. -/
theorem ff_byte_not_terminal :
    my_getwc (fun b => if b = [65] then some 65 else none) [255, 65]
        = (.eof, [65])
    ∧ my_getwc (fun b => if b = [65] then some 65 else none) [65]
        = (.char 65, []) := by
  constructor <;> decide

/-- C10 amended: whatever is buffered and whatever `mbtowc` would say, the
call of `my_getwc` that reads a `0xFF` byte returns `WEOF` at once — the
stored `char` compares equal to `EOF` on a signed-char platform — discarding
the `0xFF` and any bytes buffered before it, and leaving the following bytes
on the stream for the next call. -/
theorem ff_byte_reads_as_eof (conv : List Nat → Option Nat)
    (buf rest : List Nat) :
    my_getwcLoop conv buf (255 :: rest) = (.eof, rest)
    ∧ my_getwc conv (255 :: rest) = (.eof, rest) := by
  constructor <;> simp [my_getwc, my_getwcLoop]

/-- What `getenv` followed by `strtol(s, &endptr, 0)` yields for `COLUMNS` or
`LINES`: the variable is unset or empty (`!(s && *s)`), set but not fully
numeric (`*endptr != 0`), or fully numeric with value `t`. -/
inductive EnvNum
  | unset
  | junk
  | num (t : Int)
deriving DecidableEq

/-- The statics of `get_terminal_size` (lines 70 and 176-179): the memo
variables `incoming_cols`/`incoming_rows` (0 = not yet checked, -1 = checked
and unusable, positive = the accepted environment value), the resolved
`width`/`height`, and the last values exported with `putenv` (`none` = never
exported). -/
structure SizeState where
  incomingCols : Int
  incomingRows : Int
  width : Int
  height : Int
  envColsOut : Option Int
  envRowsOut : Option Int
deriving DecidableEq

/-- The state at program start: `width = 80, height = 24` (line 70). -/
def initSizeState : SizeState := ⟨0, 0, 80, 24, none, none⟩

/-- Lines 185-197: the `COLUMNS` block.  It runs only while
`incoming_cols == 0`; when the variable is set, `width = incoming_cols` is
assigned even if the parse failed or was out of range (so `width` can become
-1), and the result is exported with `putenv`. -/
def readCols (v : EnvNum) (st : SizeState) : SizeState :=
  if st.incomingCols = 0 then
    match v with
    | .unset => { st with incomingCols := -1 }
    | .junk => { st with incomingCols := -1, width := -1, envColsOut := some (-1) }
    | .num t =>
      let ic : Int := if 0 < t ∧ t < 666 then t else -1
      { st with incomingCols := ic, width := ic, envColsOut := some ic }
  else st

/-- Lines 198-210: the `LINES` block, symmetric to `readCols`. -/
def readRows (v : EnvNum) (st : SizeState) : SizeState :=
  if st.incomingRows = 0 then
    match v with
    | .unset => { st with incomingRows := -1 }
    | .junk => { st with incomingRows := -1, height := -1, envRowsOut := some (-1) }
    | .num t =>
      let ic : Int := if 0 < t ∧ t < 666 then t else -1
      { st with incomingRows := ic, height := ic, envRowsOut := some ic }
  else st

/-- Lines 211-224: the `TIOCGWINSZ` query, consulted only for the dimensions
the environment did not provide; `io` is `some (ws_row, ws_col)` on success
and `none` on failure. -/
def ioctlUpdate (io : Option (Int × Int)) (st : SizeState) : SizeState :=
  if st.incomingCols < 0 ∨ st.incomingRows < 0 then
    match io with
    | some rc =>
      let st1 :=
        if st.incomingRows < 0 ∧ 0 < rc.1 then
          { st with height := rc.1, envRowsOut := some rc.1 }
        else st
      if st1.incomingCols < 0 ∧ 0 < rc.2 then
        { st1 with width := rc.2, envColsOut := some rc.2 }
      else st1
    | none => st
  else st

/-- `get_terminal_size` (lines 181-225): `COLUMNS` first, then `LINES`, then
the terminal query for whatever is still missing. -/
def get_terminal_size (cols rows : EnvNum) (io : Option (Int × Int))
    (st : SizeState) : SizeState :=
  ioctlUpdate io (readRows rows (readCols cols st))

/-- C9 fails as stated: at startup `COLUMNS=100` resolves `width = 100`, but
at the next call (after a resize) the environment — now holding `COLUMNS=50`,
numeric and inside (0,666) — is not read again: `incoming_cols` memoizes the
first read, the `getenv` block is skipped, and the width stays 100 (the
terminal query, reporting 50 columns, is not consulted either). -/
theorem columns_not_reread_after_resize :
    (get_terminal_size (.num 50) (.num 25) (some (40, 50))
        (get_terminal_size (.num 100) (.num 30) none initSizeState)).width
      = 100 := by
  decide

theorem readCols_of_ne (v : EnvNum) (st : SizeState)
    (h : st.incomingCols ≠ 0) : readCols v st = st := by
  simp [readCols, h]

theorem readRows_of_ne (v : EnvNum) (st : SizeState)
    (h : st.incomingRows ≠ 0) : readRows v st = st := by
  simp [readRows, h]

theorem readRows_width (v : EnvNum) (st : SizeState) :
    (readRows v st).width = st.width
      ∧ (readRows v st).incomingCols = st.incomingCols
      ∧ (readRows v st).envColsOut = st.envColsOut := by
  rw [readRows.eq_def]
  by_cases h : st.incomingRows = 0
  · rw [if_pos h]
    cases v <;> simp
  · rw [if_neg h]
    exact ⟨rfl, rfl, rfl⟩

theorem readCols_height (v : EnvNum) (st : SizeState) :
    (readCols v st).height = st.height
      ∧ (readCols v st).incomingRows = st.incomingRows
      ∧ (readCols v st).envRowsOut = st.envRowsOut := by
  rw [readCols.eq_def]
  by_cases h : st.incomingCols = 0
  · rw [if_pos h]
    cases v <;> simp
  · rw [if_neg h]
    exact ⟨rfl, rfl, rfl⟩

theorem ioctlUpdate_of_cols_nonneg (io : Option (Int × Int)) (st : SizeState)
    (h : 0 ≤ st.incomingCols) :
    (ioctlUpdate io st).width = st.width
      ∧ (ioctlUpdate io st).envColsOut = st.envColsOut := by
  rw [ioctlUpdate.eq_def]
  by_cases hc : st.incomingCols < 0 ∨ st.incomingRows < 0
  · rw [if_pos hc]
    cases io with
    | none => exact ⟨rfl, rfl⟩
    | some rc =>
      by_cases h1 : st.incomingRows < 0 ∧ 0 < rc.1
      · simp only [if_pos h1]
        have : ¬((st.incomingCols < 0 ∧ 0 < rc.2)) := by
          intro hx
          omega
        rw [if_neg this]
        exact ⟨rfl, rfl⟩
      · simp only [if_neg h1]
        have : ¬(st.incomingCols < 0 ∧ 0 < rc.2) := by
          intro hx
          omega
        rw [if_neg this]
        exact ⟨rfl, rfl⟩
  · rw [if_neg hc]
    exact ⟨rfl, rfl⟩

theorem ioctlUpdate_of_rows_nonneg (io : Option (Int × Int)) (st : SizeState)
    (h : 0 ≤ st.incomingRows) :
    (ioctlUpdate io st).height = st.height
      ∧ (ioctlUpdate io st).envRowsOut = st.envRowsOut := by
  rw [ioctlUpdate.eq_def]
  by_cases hc : st.incomingCols < 0 ∨ st.incomingRows < 0
  · rw [if_pos hc]
    cases io with
    | none => exact ⟨rfl, rfl⟩
    | some rc =>
      have h1 : ¬(st.incomingRows < 0 ∧ 0 < rc.1) := by
        intro hx
        omega
      simp only [if_neg h1]
      by_cases h2 : st.incomingCols < 0 ∧ 0 < rc.2
      · simp only [if_pos h2]
        exact ⟨trivial, trivial⟩
      · simp only [if_neg h2]
        exact ⟨trivial, trivial⟩
  · rw [if_neg hc]
    exact ⟨rfl, rfl⟩

/-- C9 amended: `COLUMNS`/`LINES` are read from the environment only at the
first size query; for each dimension a numeric value strictly between 0 and
666 then takes priority over the terminal query and is re-exported with
`putenv`.  Calls after a resize do not read the environment again — once
both memo variables are set, the environment arguments are irrelevant — and
a cached accepted `COLUMNS` (resp. `LINES`) keeps overriding the terminal
query for the width (resp. height). -/
theorem get_terminal_size_amended :
    (∀ (t : Int) (e : EnvNum) (io : Option (Int × Int)) (st : SizeState),
      st.incomingCols = 0 → 0 < t → t < 666 →
        (get_terminal_size (.num t) e io st).width = t
        ∧ (get_terminal_size (.num t) e io st).envColsOut = some t)
    ∧ (∀ (t : Int) (e : EnvNum) (io : Option (Int × Int)) (st : SizeState),
      st.incomingRows = 0 → 0 < t → t < 666 →
        (get_terminal_size e (.num t) io st).height = t
        ∧ (get_terminal_size e (.num t) io st).envRowsOut = some t)
    ∧ (∀ (c r c2 r2 : EnvNum) (io : Option (Int × Int)) (st : SizeState),
        st.incomingCols ≠ 0 → st.incomingRows ≠ 0 →
          get_terminal_size c r io st = get_terminal_size c2 r2 io st)
    ∧ (∀ (c r : EnvNum) (io : Option (Int × Int)) (st : SizeState),
        0 < st.incomingCols →
          (get_terminal_size c r io st).width = st.width)
    ∧ ∀ (c r : EnvNum) (io : Option (Int × Int)) (st : SizeState),
        0 < st.incomingRows →
          (get_terminal_size c r io st).height = st.height := by
  refine ⟨?_, ?_, ?_, ?_, ?_⟩
  · intro t e io st h0 h1 h2
    rw [get_terminal_size]
    have hcols : readCols (.num t) st
        = { st with incomingCols := t, width := t, envColsOut := some t } := by
      rw [readCols, if_pos h0]
      simp [h1, h2]
    rw [hcols]
    obtain ⟨hw, hic, he⟩ := readRows_width e
      { st with incomingCols := t, width := t, envColsOut := some t }
    obtain ⟨hw2, he2⟩ := ioctlUpdate_of_cols_nonneg io
      (readRows e { st with incomingCols := t, width := t, envColsOut := some t })
      (by rw [hic]; exact le_of_lt h1)
    rw [hw2, he2, hw, he]
    exact ⟨rfl, rfl⟩
  · intro t e io st h0 h1 h2
    rw [get_terminal_size]
    obtain ⟨hh, hir, her⟩ := readCols_height e st
    have hrows : readRows (.num t) (readCols e st)
        = { readCols e st with
              incomingRows := t, height := t, envRowsOut := some t } := by
      rw [readRows, if_pos (by rw [hir]; exact h0)]
      simp [h1, h2]
    rw [hrows]
    obtain ⟨hh2, he2⟩ := ioctlUpdate_of_rows_nonneg io
      { readCols e st with
          incomingRows := t, height := t, envRowsOut := some t }
      (le_of_lt h1)
    rw [hh2, he2]
    exact ⟨rfl, rfl⟩
  · intro c r c2 r2 io st h1 h2
    rw [get_terminal_size, get_terminal_size,
      readCols_of_ne c st h1, readCols_of_ne c2 st h1,
      readRows_of_ne r st h2, readRows_of_ne r2 st h2]
  · intro c r io st h
    rw [get_terminal_size, readCols_of_ne c st (by omega)]
    obtain ⟨hw, hic, he⟩ := readRows_width r st
    obtain ⟨hw2, he2⟩ := ioctlUpdate_of_cols_nonneg io (readRows r st)
      (by rw [hic]; omega)
    rw [hw2, hw]
  · intro c r io st h
    rw [get_terminal_size]
    obtain ⟨hh, hir, her⟩ := readCols_height c st
    have hne : (readCols c st).incomingRows ≠ 0 := by
      rw [hir]
      omega
    rw [readRows_of_ne r _ hne]
    obtain ⟨hh2, he2⟩ := ioctlUpdate_of_rows_nonneg io (readCols c st)
      (by rw [hir]; omega)
    rw [hh2, hh]

/-- Witness for C9 amended: at the first call `COLUMNS=100` wins over a
terminal reporting 50 columns and `LINES=30` wins over its 40 rows, and both
are re-exported. -/
theorem get_terminal_size_amended_witness :
    ((get_terminal_size (.num 100) (.num 30) (some (40, 50))
          initSizeState).width = 100
      ∧ (get_terminal_size (.num 100) (.num 30) (some (40, 50))
          initSizeState).envColsOut = some 100)
    ∧ (get_terminal_size (.num 100) (.num 30) (some (40, 50))
          initSizeState).height = 30
      ∧ (get_terminal_size (.num 100) (.num 30) (some (40, 50))
          initSizeState).envRowsOut = some 30 :=
  ⟨get_terminal_size_amended.1 100 (.num 30) (some (40, 50)) initSizeState rfl
      (by decide) (by decide),
   get_terminal_size_amended.2.1 30 (.num 100) (some (40, 50)) initSizeState
      rfl (by decide) (by decide)⟩

/-- Layout configuration: the grid geometry and the locale functions the
source consults.  `showTitle` is 0 under `--no-title` and otherwise 2
(line 73); `wcw` abstracts `wcwidth` (with `wcwidth(WEOF)` taken as -1) and
`isp` abstracts `isprint`.  Color mode is off (`option_color = 0`), which
makes the escape-interception branches of the loop dead, since
`c != '\033' || option_color != 1` then always holds. -/
structure Cfg where
  width : Nat
  height : Nat
  showTitle : Nat
  wcw : Nat → Int
  isp : Nat → Bool

/-- One display cell written by `move(y, x); addnwstr(&c, 1)`. -/
structure Cell where
  row : Nat
  col : Nat
  ch : Nat
deriving DecidableEq

/-- Prepend an emitted cell to the result of the rest of the loop. -/
def consFst (c : Cell) (r : List Cell × List Nat) : List Cell × List Nat :=
  (c :: r.1, r.2)

/-- The guard of the `do ... while` pull loop (lines 552-556): code points
that are not printable, below 128, of zero display width, and not newline or
tab are skipped (the escape conjunct holds vacuously with color off). -/
def skipCond (cfg : Cfg) (c : Nat) : Bool :=
  !cfg.isp c && decide (c < 128) && decide (cfg.wcw c = 0)
    && decide (c ≠ 10) && decide (c ≠ 9)

/-- Read code points from the stream until one escapes the skip guard;
`none` models `WEOF`. -/
def pullStream (cfg : Cfg) : List Nat → Option Nat × List Nat
  | [] => (none, [])
  | c :: rest => if skipCond cfg c then pullStream cfg rest else (some c, rest)

/-- Lines 545-551: the pull takes the carried code point first when a
double-width carry is pending (clearing it), else reads the stream. -/
def pull (cfg : Cfg) (carry : Option Nat) (s : List Nat) : Option Nat × List Nat :=
  match carry with
  | some c => if skipCond cfg c then pullStream cfg s else (some c, s)
  | none => pullStream cfg s

/-- Column advance after writing `c` at column `x`: the `for` increment plus
the zero-width `x--` and double-width `x++` adjustments (lines 596-597). -/
def nextX (cfg : Cfg) (x c : Nat) : Nat :=
  if cfg.wcw c = 0 then x else if cfg.wcw c = 2 then x + 2 else x + 1

/-- The render double loop of `main` (lines 534-600) with color mode off, as
a fueled step function — the C loop need not terminate (a double-width code
point carried on a one-column screen loops forever), so one fuel unit is
spent per loop iteration.  Arguments after the fuel: row `y`, column `x`,
the per-row flags `eolseen` and `tabpending`, the pending double-width
`carry`, the previous row's `oldeolseen`, and the code-point stream.
Returns the cells written by `move`/`addnwstr` and the unconsumed stream.
Branches, in source order: with `eolseen` set the whole reading block is
skipped and a blank is written; with `tabpending` set no pull happens, a
blank is written, and the flag clears where `(x+1) % 8 == 0`; otherwise a
code point is pulled and dispatched: stray-newline skip (`x = -1; continue`),
newline setting `eolseen`, tab setting `tabpending`, the double-width carry
to a fresh row at the last column (`y++; x = -1; carry = c; continue`), and
`WEOF`/newline/tab all painting as a blank.  At `x >= width` the inner loop
exits: `oldeolseen = eolseen`, the outer loop advances to row `y+1` and
stops once `y+1 >= height`. -/
def layoutLoop (cfg : Cfg) :
    Nat → Nat → Nat → Bool → Bool → Option Nat → Bool → List Nat →
      List Cell × List Nat
  | 0, _, _, _, _, _, _, s => ([], s)
  | fuel + 1, y, x, eolseen, tabpending, carry, oldeolseen, s =>
    if x < cfg.width then
      if eolseen then
        consFst ⟨y, x, 32⟩
          (layoutLoop cfg fuel y (nextX cfg x 32) true tabpending carry oldeolseen s)
      else if tabpending then
        if x = cfg.width - 1 ∧ cfg.wcw 32 = 2 then
          layoutLoop cfg fuel (y + 1) 0 false true (some 32) oldeolseen s
        else
          consFst ⟨y, x, 32⟩
            (layoutLoop cfg fuel y (nextX cfg x 32) false
              (!decide ((x + 1) % 8 = 0)) carry oldeolseen s)
      else
        match pull cfg carry s with
        | (none, s2) =>
          consFst ⟨y, x, 32⟩
            (layoutLoop cfg fuel y (nextX cfg x 32) false false none oldeolseen s2)
        | (some c, s2) =>
          if c = 10 then
            if !oldeolseen ∧ x = 0 then
              layoutLoop cfg fuel y 0 false false none oldeolseen s2
            else if x = cfg.width - 1 ∧ cfg.wcw 10 = 2 then
              layoutLoop cfg fuel (y + 1) 0 true false (some 10) oldeolseen s2
            else
              consFst ⟨y, x, 32⟩
                (layoutLoop cfg fuel y (nextX cfg x 32) true false none oldeolseen s2)
          else if c = 9 then
            if x = cfg.width - 1 ∧ cfg.wcw 9 = 2 then
              layoutLoop cfg fuel (y + 1) 0 false true (some 9) oldeolseen s2
            else
              consFst ⟨y, x, 32⟩
                (layoutLoop cfg fuel y (nextX cfg x 32) false
                  (!decide ((x + 1) % 8 = 0)) none oldeolseen s2)
          else
            if x = cfg.width - 1 ∧ cfg.wcw c = 2 then
              layoutLoop cfg fuel (y + 1) 0 false false (some c) oldeolseen s2
            else
              consFst ⟨y, x, c⟩
                (layoutLoop cfg fuel y (nextX cfg x c) false false none oldeolseen s2)
    else
      if y + 1 < cfg.height then
        layoutLoop cfg fuel (y + 1) 0 false false none eolseen s
      else ([], s)

/-- The whole per-cycle layout pass: rows run from `show_title` (line 534)
with `oldeolseen` starting at 1 (line 428); with `show_title >= height` the
outer loop does not run at all. -/
def layoutRun (cfg : Cfg) (fuel : Nat) (s : List Nat) : List Cell × List Nat :=
  if cfg.showTitle < cfg.height then
    layoutLoop cfg fuel cfg.showTitle 0 false false none true s
  else ([], s)

/-- A 2-column, 1-row, no-title screen over an ASCII-style locale in which
code point 0x6F22 is double-width and everything else is single-width. -/
def demoLayoutCfg : Cfg :=
  ⟨2, 1, 0, fun c => if c = 27722 then 2 else 1,
    fun c => decide (32 ≤ c ∧ c ≤ 126)⟩

/-- C5 fails as stated: on the 2x1 grid, the double-width code point 0x6F22
arriving at the last column of the last row is carried to a new row — the
source runs `y++` with no height check — and its cell is written at row 1,
while the grid's rows are 0..height-1 = 0..0. -/
theorem layout_paints_outside_grid :
    (layoutRun demoLayoutCfg 10 [65, 27722]).1
        = [⟨0, 0, 65⟩, ⟨1, 0, 27722⟩]
    ∧ demoLayoutCfg.height = 1 := by
  constructor
  · decide
  · rfl

theorem mem_consFst {cell c : Cell} {r : List Cell × List Nat}
    (h : cell ∈ (consFst c r).1) : cell = c ∨ cell ∈ r.1 := by
  simpa [consFst] using h

theorem pullStream_prop (cfg : Cfg) (P : Nat → Prop) :
    ∀ s : List Nat, (∀ c ∈ s, P c) →
      (∀ c, (pullStream cfg s).1 = some c → P c)
      ∧ ∀ c ∈ (pullStream cfg s).2, P c := by
  intro s
  induction s with
  | nil =>
    intro h
    constructor
    · intro c hc; simp [pullStream] at hc
    · intro c hc; simp [pullStream] at hc
  | cons a rest ih =>
    intro h
    rw [pullStream]
    by_cases hsk : skipCond cfg a
    · rw [if_pos hsk]
      exact ih (fun c hc => h c (List.mem_cons_of_mem _ hc))
    · rw [if_neg hsk]
      constructor
      · intro c hc
        simp only [Option.some.injEq] at hc
        exact hc ▸ h a (List.mem_cons_self _ _)
      · intro c hc
        exact h c (List.mem_cons_of_mem _ hc)

theorem pull_prop (cfg : Cfg) (P : Nat → Prop) (carry : Option Nat) (s : List Nat)
    (hs : ∀ c ∈ s, P c) (hcar : ∀ c, carry = some c → P c) :
    (∀ c, (pull cfg carry s).1 = some c → P c)
    ∧ ∀ c ∈ (pull cfg carry s).2, P c := by
  cases carry with
  | none => exact pullStream_prop cfg P s hs
  | some a =>
    rw [pull]
    by_cases h : skipCond cfg a
    · rw [if_pos h]
      exact pullStream_prop cfg P s hs
    · rw [if_neg h]
      refine ⟨?_, fun c hc => hs c hc⟩
      intro c hc
      simp only [Option.some.injEq] at hc
      exact hc ▸ hcar a rfl

theorem layoutLoop_cols (cfg : Cfg) :
    ∀ (fuel y x : Nat) (eol tp : Bool) (carry : Option Nat) (oe : Bool)
      (s : List Nat) (cell : Cell),
      cell ∈ (layoutLoop cfg fuel y x eol tp carry oe s).1 →
      cell.col < cfg.width := by
  intro fuel
  induction fuel with
  | zero => intro y x eol tp carry oe s cell h; simp [layoutLoop] at h
  | succ fuel ih =>
    intro y x eol tp carry oe s cell h
    rw [layoutLoop] at h
    by_cases hx : x < cfg.width
    · rw [if_pos hx] at h
      by_cases heol : eol = true
      · rw [if_pos heol] at h
        rcases mem_consFst h with rfl | h2
        · exact hx
        · exact ih _ _ _ _ _ _ _ _ h2
      · rw [if_neg heol] at h
        by_cases htp : tp = true
        · rw [if_pos htp] at h
          by_cases hb : x = cfg.width - 1 ∧ cfg.wcw 32 = 2
          · rw [if_pos hb] at h
            exact ih _ _ _ _ _ _ _ _ h
          · rw [if_neg hb] at h
            rcases mem_consFst h with rfl | h2
            · exact hx
            · exact ih _ _ _ _ _ _ _ _ h2
        · rw [if_neg htp] at h
          rcases hp : pull cfg carry s with ⟨copt, s2⟩
          rw [hp] at h
          cases copt with
          | none =>
            simp only at h
            rcases mem_consFst h with rfl | h2
            · exact hx
            · exact ih _ _ _ _ _ _ _ _ h2
          | some c =>
            simp only at h
            by_cases hc10 : c = 10
            · rw [if_pos hc10] at h
              by_cases hsk : (!oe) = true ∧ x = 0
              · rw [if_pos hsk] at h
                exact ih _ _ _ _ _ _ _ _ h
              · rw [if_neg hsk] at h
                by_cases hb : x = cfg.width - 1 ∧ cfg.wcw 10 = 2
                · rw [if_pos hb] at h
                  exact ih _ _ _ _ _ _ _ _ h
                · rw [if_neg hb] at h
                  rcases mem_consFst h with rfl | h2
                  · exact hx
                  · exact ih _ _ _ _ _ _ _ _ h2
            · rw [if_neg hc10] at h
              by_cases hc9 : c = 9
              · rw [if_pos hc9] at h
                by_cases hb : x = cfg.width - 1 ∧ cfg.wcw 9 = 2
                · rw [if_pos hb] at h
                  exact ih _ _ _ _ _ _ _ _ h
                · rw [if_neg hb] at h
                  rcases mem_consFst h with rfl | h2
                  · exact hx
                  · exact ih _ _ _ _ _ _ _ _ h2
              · rw [if_neg hc9] at h
                by_cases hb : x = cfg.width - 1 ∧ cfg.wcw c = 2
                · rw [if_pos hb] at h
                  exact ih _ _ _ _ _ _ _ _ h
                · rw [if_neg hb] at h
                  rcases mem_consFst h with rfl | h2
                  · exact hx
                  · exact ih _ _ _ _ _ _ _ _ h2
    · rw [if_neg hx] at h
      by_cases hy : y + 1 < cfg.height
      · rw [if_pos hy] at h
        exact ih _ _ _ _ _ _ _ _ h
      · rw [if_neg hy] at h
        simp at h

theorem layoutLoop_rows (cfg : Cfg) (h32 : cfg.wcw 32 ≠ 2) :
    ∀ (fuel y x : Nat) (eol tp : Bool) (carry : Option Nat) (oe : Bool)
      (s : List Nat) (cell : Cell),
      y < cfg.height →
      (∀ c ∈ s, cfg.wcw c ≠ 2) →
      (∀ c, carry = some c → cfg.wcw c ≠ 2) →
      cell ∈ (layoutLoop cfg fuel y x eol tp carry oe s).1 →
      cell.row < cfg.height := by
  intro fuel
  induction fuel with
  | zero =>
    intro y x eol tp carry oe s cell hy hs hcar h
    simp [layoutLoop] at h
  | succ fuel ih =>
    intro y x eol tp carry oe s cell hy hs hcar h
    rw [layoutLoop] at h
    by_cases hx : x < cfg.width
    · rw [if_pos hx] at h
      by_cases heol : eol = true
      · rw [if_pos heol] at h
        rcases mem_consFst h with rfl | h2
        · exact hy
        · exact ih _ _ _ _ _ _ _ _ hy hs hcar h2
      · rw [if_neg heol] at h
        by_cases htp : tp = true
        · rw [if_pos htp] at h
          by_cases hb : x = cfg.width - 1 ∧ cfg.wcw 32 = 2
          · exact absurd hb.2 h32
          · rw [if_neg hb] at h
            rcases mem_consFst h with rfl | h2
            · exact hy
            · exact ih _ _ _ _ _ _ _ _ hy hs hcar h2
        · rw [if_neg htp] at h
          have hprop := pull_prop cfg (fun c => cfg.wcw c ≠ 2) carry s hs hcar
          rcases hp : pull cfg carry s with ⟨copt, s2⟩
          rw [hp] at h hprop
          cases copt with
          | none =>
            simp only at h
            rcases mem_consFst h with rfl | h2
            · exact hy
            · exact ih _ _ _ _ _ _ _ _ hy (fun c hc => hprop.2 c hc)
                (fun c hc => by simp at hc) h2
          | some c =>
            simp only at h
            have hcw : cfg.wcw c ≠ 2 := hprop.1 c rfl
            by_cases hc10 : c = 10
            · rw [if_pos hc10] at h
              by_cases hsk : (!oe) = true ∧ x = 0
              · rw [if_pos hsk] at h
                exact ih _ _ _ _ _ _ _ _ hy (fun c2 hc2 => hprop.2 c2 hc2)
                  (fun c2 hc2 => by simp at hc2) h
              · rw [if_neg hsk] at h
                by_cases hb : x = cfg.width - 1 ∧ cfg.wcw 10 = 2
                · exact absurd hb.2 (hc10 ▸ hcw)
                · rw [if_neg hb] at h
                  rcases mem_consFst h with rfl | h2
                  · exact hy
                  · exact ih _ _ _ _ _ _ _ _ hy (fun c2 hc2 => hprop.2 c2 hc2)
                      (fun c2 hc2 => by simp at hc2) h2
            · rw [if_neg hc10] at h
              by_cases hc9 : c = 9
              · rw [if_pos hc9] at h
                by_cases hb : x = cfg.width - 1 ∧ cfg.wcw 9 = 2
                · exact absurd hb.2 (hc9 ▸ hcw)
                · rw [if_neg hb] at h
                  rcases mem_consFst h with rfl | h2
                  · exact hy
                  · exact ih _ _ _ _ _ _ _ _ hy (fun c2 hc2 => hprop.2 c2 hc2)
                      (fun c2 hc2 => by simp at hc2) h2
              · rw [if_neg hc9] at h
                by_cases hb : x = cfg.width - 1 ∧ cfg.wcw c = 2
                · exact absurd hb.2 hcw
                · rw [if_neg hb] at h
                  rcases mem_consFst h with rfl | h2
                  · exact hy
                  · exact ih _ _ _ _ _ _ _ _ hy (fun c2 hc2 => hprop.2 c2 hc2)
                      (fun c2 hc2 => by simp at hc2) h2
    · rw [if_neg hx] at h
      by_cases hyy : y + 1 < cfg.height
      · rw [if_pos hyy] at h
        exact ih _ _ _ _ _ _ _ _ hyy hs (fun c hc => by simp at hc) h
      · rw [if_neg hyy] at h
        simp at h

/-- C5 amended: every cell the layout engine writes has its column inside
[0, width); and whenever no code point of the stream is double-width (and a
blank is not double-width), every row is inside [0, height) as well — rows
can leave the grid only through the double-width carry out of the last
column of the last row, as exhibited by the counterexample. -/
theorem layout_cells_in_grid (cfg : Cfg) (fuel : Nat) (s : List Nat) :
    (∀ cell ∈ (layoutRun cfg fuel s).1, cell.col < cfg.width)
    ∧ (cfg.wcw 32 ≠ 2 → (∀ c ∈ s, cfg.wcw c ≠ 2) →
        ∀ cell ∈ (layoutRun cfg fuel s).1, cell.row < cfg.height) := by
  constructor
  · intro cell h
    rw [layoutRun] at h
    by_cases hst : cfg.showTitle < cfg.height
    · rw [if_pos hst] at h
      exact layoutLoop_cols cfg _ _ _ _ _ _ _ _ _ h
    · rw [if_neg hst] at h
      simp at h
  · intro h32 hs cell h
    rw [layoutRun] at h
    by_cases hst : cfg.showTitle < cfg.height
    · rw [if_pos hst] at h
      exact layoutLoop_rows cfg h32 _ _ _ _ _ _ _ _ _ hst hs
        (fun c hc => by simp at hc) h
    · rw [if_neg hst] at h
      simp at h

/-- Witness for C5 amended: on the all-single-width stream `hi` the cell
written last sits inside the 2x1 grid. -/
theorem layout_cells_in_grid_witness :
    (Cell.mk 0 1 105).col < demoLayoutCfg.width
      ∧ (Cell.mk 0 1 105).row < demoLayoutCfg.height :=
  ⟨(layout_cells_in_grid demoLayoutCfg 10 [104, 105]).1 ⟨0, 1, 105⟩ (by decide),
   (layout_cells_in_grid demoLayoutCfg 10 [104, 105]).2 (by decide) (by decide)
     ⟨0, 1, 105⟩ (by decide)⟩

theorem range_map_cells (y x n ch : Nat) :
    (⟨y, x, ch⟩ : Cell) :: (List.range n).map (fun j => (⟨y, x + 1 + j, ch⟩ : Cell))
      = (List.range (n + 1)).map (fun j => (⟨y, x + j, ch⟩ : Cell)) := by
  have hfun : (fun j => (⟨y, x + 1 + j, ch⟩ : Cell))
      = (fun j => (⟨y, x + j, ch⟩ : Cell)) ∘ Nat.succ := by
    funext j
    have hj : x + 1 + j = x + Nat.succ j := by omega
    show Cell.mk y (x + 1 + j) ch = Cell.mk y (x + Nat.succ j) ch
    rw [hj]
  rw [List.range_succ_eq_map, List.map_cons, List.map_map, hfun]
  simp

theorem eolseen_pad (cfg : Cfg) (h32 : cfg.wcw 32 = 1) :
    ∀ (n fuel y x : Nat) (tp : Bool) (carry : Option Nat) (oe : Bool)
      (s : List Nat),
      x + n = cfg.width →
      layoutLoop cfg (fuel + n) y x true tp carry oe s
        = ((List.range n).map (fun j => ⟨y, x + j, 32⟩)
             ++ (layoutLoop cfg fuel y cfg.width true tp carry oe s).1,
           (layoutLoop cfg fuel y cfg.width true tp carry oe s).2) := by
  intro n
  induction n with
  | zero =>
    intro fuel y x tp carry oe s hx
    have hxw : x = cfg.width := by omega
    subst hxw
    simp
  | succ n ih =>
    intro fuel y x tp carry oe s hx
    have hxlt : x < cfg.width := by omega
    have hnx : nextX cfg x 32 = x + 1 := by
      simp [nextX, h32]
    have hfe : fuel + (n + 1) = (fuel + n) + 1 := by omega
    rw [hfe, layoutLoop, if_pos hxlt]
    simp only [if_true, hnx]
    rw [ih fuel y (x + 1) tp carry oe s (by omega)]
    rw [consFst]
    rw [← List.cons_append, range_map_cells y x n 32]

/-- C8: a newline pulled at column 0 while the previous row did not end in a
natural end-of-line is skipped entirely — the loop continues at the same row
and column with only the newline consumed — whereas any other newline ends
the row early: the rest of the row is written as blanks without touching the
stream, and the row finishes with `eolseen` set (which becomes the next
row's `oldeolseen`). -/
theorem newline_skip_or_end_row (cfg : Cfg) (h32 : cfg.wcw 32 = 1)
    (h10 : cfg.wcw 10 ≠ 2) :
    (∀ (fuel y : Nat) (s : List Nat), 0 < cfg.width →
      layoutLoop cfg (fuel + 1) y 0 false false none false (10 :: s)
        = layoutLoop cfg fuel y 0 false false none false s)
    ∧ ∀ (fuel y x : Nat) (oe : Bool) (s : List Nat),
        x < cfg.width → (oe = true ∨ x ≠ 0) →
        layoutLoop cfg (fuel + (cfg.width - x)) y x false false none oe (10 :: s)
          = ((List.range (cfg.width - x)).map (fun j => ⟨y, x + j, 32⟩)
               ++ (layoutLoop cfg fuel y cfg.width true false none oe s).1,
             (layoutLoop cfg fuel y cfg.width true false none oe s).2) := by
  have hsk10 : skipCond cfg 10 = false := by simp [skipCond]
  constructor
  · intro fuel y s hw
    rw [layoutLoop, if_pos hw]
    simp [pull, pullStream, hsk10]
  · intro fuel y x oe s hx hcond
    have hnx : nextX cfg x 32 = x + 1 := by
      simp [nextX, h32]
    have hskip : ¬((!oe) = true ∧ x = 0) := by
      rcases hcond with h | h
      · rintro ⟨h1, _⟩
        rw [h] at h1
        simp at h1
      · rintro ⟨_, h0⟩
        exact h h0
    have hb : ¬(x = cfg.width - 1 ∧ cfg.wcw 10 = 2) := fun hh => h10 hh.2
    have hfe : fuel + (cfg.width - x) = (fuel + (cfg.width - x - 1)) + 1 := by
      omega
    rw [hfe, layoutLoop, if_pos hx]
    simp only [pull, pullStream, hsk10, Bool.false_eq_true, if_false,
      if_neg hskip, if_neg hb, hnx]
    rw [eolseen_pad cfg h32 (cfg.width - x - 1) fuel y (x + 1) false none oe s
      (by omega)]
    rw [consFst]
    rw [← List.cons_append, range_map_cells y x (cfg.width - x - 1) 32]
    have hsw : cfg.width - x - 1 + 1 = cfg.width - x := by omega
    rw [hsw]
    simp

/-- A 16-column, 3-row, no-title screen over a locale in which every code
point is single-width. -/
def demoTabCfg : Cfg :=
  ⟨16, 3, 0, fun _ => 1, fun c => decide (32 ≤ c ∧ c ≤ 126)⟩

/-- Witness for C8: on the 16-column screen, a leading stray newline after an
unfinished row is dropped, and a newline at column 1 blank-pads columns
1..15. -/
theorem newline_skip_or_end_row_witness :
    layoutLoop demoTabCfg (3 + 1) 0 0 false false none false (10 :: [65])
        = layoutLoop demoTabCfg 3 0 0 false false none false [65]
    ∧ layoutLoop demoTabCfg (2 + (demoTabCfg.width - 1)) 0 1 false false none
          false (10 :: [66])
        = ((List.range (demoTabCfg.width - 1)).map (fun j => ⟨0, 1 + j, 32⟩)
             ++ (layoutLoop demoTabCfg 2 0 demoTabCfg.width true false none
                  false [66]).1,
           (layoutLoop demoTabCfg 2 0 demoTabCfg.width true false none
              false [66]).2) :=
  ⟨(newline_skip_or_end_row demoTabCfg rfl (by decide)).1 3 0 [65] (by decide),
   (newline_skip_or_end_row demoTabCfg rfl (by decide)).2 2 0 1 false [66]
     (by decide) (Or.inr (by decide))⟩

theorem tabPending_run (cfg : Cfg) (h32 : cfg.wcw 32 = 1) :
    ∀ (k fuel y x : Nat) (carry : Option Nat) (oe : Bool) (s : List Nat),
      k ≤ 7 → (x + k + 1) % 8 = 0 → x + k < cfg.width →
      layoutLoop cfg (fuel + k + 1) y x false true carry oe s
        = ((List.range (k + 1)).map (fun j => ⟨y, x + j, 32⟩)
             ++ (layoutLoop cfg fuel y (x + k + 1) false false carry oe s).1,
           (layoutLoop cfg fuel y (x + k + 1) false false carry oe s).2) := by
  intro k
  induction k with
  | zero =>
    intro fuel y x carry oe s hk h8 hxw
    have hx : x < cfg.width := by omega
    have hb : ¬(x = cfg.width - 1 ∧ cfg.wcw 32 = 2) := by
      rintro ⟨_, h2⟩
      rw [h32] at h2
      exact absurd h2 (by decide)
    have h8' : (x + 1) % 8 = 0 := by omega
    have hnx : nextX cfg x 32 = x + 1 := by simp [nextX, h32]
    simp only [Nat.add_zero]
    rw [layoutLoop, if_pos hx]
    simp only [Bool.false_eq_true, if_false, if_neg hb, hnx, h8']
    simp [consFst, List.range_succ]
  | succ k ih =>
    intro fuel y x carry oe s hk h8 hxw
    have hx : x < cfg.width := by omega
    have hb : ¬(x = cfg.width - 1 ∧ cfg.wcw 32 = 2) := by
      rintro ⟨_, h2⟩
      rw [h32] at h2
      exact absurd h2 (by decide)
    have h8' : ¬((x + 1) % 8 = 0) := by omega
    have hnx : nextX cfg x 32 = x + 1 := by simp [nextX, h32]
    have hfe : fuel + (k + 1) + 1 = (fuel + k + 1) + 1 := by omega
    rw [hfe, layoutLoop, if_pos hx]
    simp only [Bool.false_eq_true, if_false, if_neg hb, hnx, h8',
      eq_self_iff_true, if_true, decide_False, Bool.not_false]
    rw [ih fuel y (x + 1) carry oe s (by omega) (by omega) (by omega)]
    rw [show x + 1 + k + 1 = x + (k + 1) + 1 from by omega]
    rw [consFst, ← List.cons_append, range_map_cells y x (k + 1) 32]

/-- C7: a tab never places a glyph: the cell at the tab's own column and
every cell up to the next tab stop are blanks, written without consuming the
stream while the pending flag is set; the flag clears at the column where
`(x+1) % 8 == 0`, so the engine resumes reading the stream at the column
`x + (7 - x%8) + 1`, which is congruent to 0 modulo 8 (where the next
printable code point lands). -/
theorem tab_stops_mod_eight (cfg : Cfg) (h32 : cfg.wcw 32 = 1)
    (h9 : cfg.wcw 9 ≠ 2) (fuel y x : Nat) (oe : Bool) (s : List Nat)
    (hx : x + (7 - x % 8) < cfg.width) :
    (x + (7 - x % 8) + 1) % 8 = 0
    ∧ layoutLoop cfg (fuel + (7 - x % 8) + 1) y x false false none oe (9 :: s)
        = ((List.range (7 - x % 8 + 1)).map (fun j => ⟨y, x + j, 32⟩)
             ++ (layoutLoop cfg fuel y (x + (7 - x % 8) + 1) false false none
                  oe s).1,
           (layoutLoop cfg fuel y (x + (7 - x % 8) + 1) false false none oe
              s).2) := by
  constructor
  · omega
  · have hsk9 : skipCond cfg 9 = false := by simp [skipCond]
    have hxlt : x < cfg.width := by omega
    have hb : ¬(x = cfg.width - 1 ∧ cfg.wcw 9 = 2) := fun hh => h9 hh.2
    have hnx : nextX cfg x 32 = x + 1 := by simp [nextX, h32]
    by_cases h7 : x % 8 = 7
    · have hk0 : 7 - x % 8 = 0 := by omega
      have h8 : (x + 1) % 8 = 0 := by omega
      rw [hk0]
      simp only [Nat.add_zero]
      rw [layoutLoop, if_pos hxlt]
      simp only [pull, pullStream, hsk9, Bool.false_eq_true, if_false,
        if_neg hb, hnx, h8]
      simp [consFst, List.range_succ]
    · obtain ⟨m, hm⟩ : ∃ m, 7 - x % 8 = m + 1 :=
        ⟨7 - x % 8 - 1, by omega⟩
      have h8' : ¬((x + 1) % 8 = 0) := by omega
      rw [hm]
      rw [show fuel + (m + 1) + 1 = (fuel + (m + 1)) + 1 from rfl]
      rw [layoutLoop, if_pos hxlt]
      simp only [pull, pullStream, hsk9, Bool.false_eq_true, if_false,
        if_neg (show ¬(9 : Nat) = 10 from by decide), eq_self_iff_true,
        if_true, if_neg hb, hnx, h8', decide_False, Bool.not_false]
      rw [show fuel + (m + 1) = (fuel + m) + 1 from by omega]
      rw [tabPending_run cfg h32 m fuel y (x + 1) none oe s (by omega)
        (by omega) (by omega)]

      rw [show x + 1 + m + 1 = x + (m + 1) + 1 from by omega]
      rw [consFst, ← List.cons_append, range_map_cells y x (m + 1) 32]

/-- Witness for C7: a tab read at column 7 of the 16-column screen blanks
exactly its own cell and the next read happens at column 8. -/
theorem tab_stops_mod_eight_witness :
    (7 + (7 - 7 % 8) + 1) % 8 = 0
    ∧ layoutLoop demoTabCfg (2 + (7 - 7 % 8) + 1) 0 7 false false none false
          (9 :: [65])
        = ((List.range (7 - 7 % 8 + 1)).map (fun j => ⟨0, 7 + j, 32⟩)
             ++ (layoutLoop demoTabCfg 2 0 (7 + (7 - 7 % 8) + 1) false false
                  none false [65]).1,
           (layoutLoop demoTabCfg 2 0 (7 + (7 - 7 % 8) + 1) false false none
              false [65]).2) :=
  tab_stops_mod_eight demoTabCfg rfl (by decide) 2 0 7 false [65] (by decide)
